import Mathlib

/-!
Shallow embedding of the Syntactix toolkit (scanning engine, parsing engine,
shared position model) together with its demo arithmetic lexer, and proofs
about the embedded operations.  Source strings are modelled as `List Char`,
Python slices/indices by explicit clamped operations, raised exceptions by
`Except`/`Option` results, and object mutation by state passing.
-/

set_option linter.unusedVariables false

namespace Syntactix

/-- Position in text (`TokenPos` in `lexical/token.py`): line, char (column
within the line) and pos (absolute offset). -/
structure TokenPos where
  line : Nat
  char : Nat
  pos : Nat
deriving DecidableEq, Repr

/-- Token shape (`TokenLike` protocol): type tag, lexeme, decoded value,
position.  The decoded value is either the lexeme itself (the engine default,
`Sum.inl`) or a consumer-supplied value of type `V` (`Sum.inr`), mirroring the
Python `value = lexeme if value is sentinel else value` union. -/
structure Tok (V T : Type) where
  type : T
  lexeme : List Char
  value : Sum (List Char) V
  pos : TokenPos
deriving DecidableEq, Repr

/-- Modelled from the spec: `normalize_crlf` (module `syntactix.text_normalizer`,
not present under src/) rewrites every CRLF pair and every lone CR to a single
LF before any offset is computed. -/
def normalize_crlf : List Char → List Char
  | [] => []
  | '\r' :: '\n' :: rest => '\n' :: normalize_crlf rest
  | '\r' :: rest => '\n' :: normalize_crlf rest
  | c :: rest => c :: normalize_crlf rest

/-- Python slice `l[a:b]` for nonnegative bounds: clamped at both ends. -/
def pySlice {α : Type} (l : List α) (a b : Nat) : List α :=
  (l.take b).drop a

/-- Python slice `l[k:]` for a possibly negative `k` (negative indices count
from the end, clamped at 0). -/
def pyDropFrom (l : List Char) (k : Int) : List Char :=
  if k < 0 then l.drop ((l.length + k).toNat) else l.drop k.toNat

/-- Python `<=` on two booleans (`False < True`), used by the source as an
implication operator in `consume_while`. -/
def pyBoolLe (a b : Bool) : Bool :=
  a.toNat ≤ b.toNat

/-- Scan-time error taxonomy (`lexical/exceptions.py`). -/
inductive LexExc where
  | consumeFailed (pos : TokenPos) (count : Nat)
  | requireFailed (pos : TokenPos) (strings : List (List Char))
  | unexpectedChar (pos : TokenPos) (char : List Char)
deriving DecidableEq, Repr

/-- Scanner cursor state (`LexerBase` mutable fields): normalized source,
cursor offset `i`, current line, offset from line start `line_i`, start of the
current token `start`, and the accumulated token list. -/
structure LexState (V T : Type) where
  src : List Char
  i : Nat
  line : Nat
  line_i : Nat
  start : Nat
  tokens : List (Tok V T)
deriving DecidableEq, Repr

variable {V T : Type}

/-- `LexerBase.__init__` with the default `normalize_crlf_to_lf = True`. -/
def LexState.init (src : List Char) : LexState V T :=
  { src := normalize_crlf src, i := 0, line := 0, line_i := 0, start := 0,
    tokens := [] }

/-- `LexerBase.inc_pos`: `i += delta; line_i += delta`.  The deltas used by the
engine and the demo keep both counters nonnegative; `Int.toNat` records that
the embedding is over naturals. -/
def LexState.inc_pos (st : LexState V T) (delta : Int) : LexState V T :=
  { st with
    i := ((st.i : Int) + delta).toNat,
    line_i := ((st.line_i : Int) + delta).toNat }

/-- `LexerBase.mark_next_line`. -/
def LexState.mark_next_line (st : LexState V T) : LexState V T :=
  { st with line_i := 0, line := st.line + 1 }

/-- `LexerBase.is_at_end`. -/
def LexState.is_at_end (st : LexState V T) : Bool :=
  st.src.length ≤ st.i

/-- `LexerBase.not_at_end`. -/
def LexState.not_at_end (st : LexState V T) : Bool :=
  !st.is_at_end

/-- `LexerBase.pos`. -/
def LexState.pos (st : LexState V T) : TokenPos :=
  { pos := st.i, char := st.line_i, line := st.line }

/-- `LexerBase.peek`: the current character as a Python string — a singleton
when input remains, the empty string at end of input. -/
def LexState.peek (st : LexState V T) : List Char :=
  if h : st.i < st.src.length then [st.src.get ⟨st.i, h⟩] else []

/-- `LexerBase.consume`: `None` at end of input, else the current character
with the cursor advanced by one (the source reads `src[i - 1]` after the
advance, which is the same character). -/
def LexState.consume (st : LexState V T) : Option Char × LexState V T :=
  if h : st.i < st.src.length then (some (st.src.get ⟨st.i, h⟩), st.inc_pos 1)
  else (none, st)

/-- `LexerBase.consume_or_fail`. -/
def LexState.consume_or_fail (st : LexState V T) :
    Except LexExc (Char × LexState V T) :=
  match st.consume with
  | (some ch, st') => .ok (ch, st')
  | (none, st') => .error (.consumeFailed st'.pos 1)

/-- `LexerBase.consume_many`: `None` unless strictly more than `count`
characters remain (`if self.i + count >= len(self.src)`), else the slice
`src[i : i + count]` with the cursor advanced by `count`. -/
def LexState.consume_many (st : LexState V T) (count : Nat) :
    Option (List Char) × LexState V T :=
  if st.src.length ≤ st.i + count then (none, st)
  else (some (pySlice st.src st.i (st.i + count)), st.inc_pos count)

/-- `LexerBase.consume_many_or_fail`: the source body is
`ch = self.consume()`, failing with the given `count` only when `consume`
returned `None`, and otherwise returning the single consumed character. -/
def LexState.consume_many_or_fail (st : LexState V T) (count : Nat) :
    Except LexExc (List Char × LexState V T) :=
  match st.consume with
  | (some ch, st') => .ok ([ch], st')
  | (none, st') => .error (.consumeFailed st'.pos count)

/-- `LexerBase.string_ahead`: `src[min(i + offset, len(src) - 1):]` starts
with `string`.  `len(src) - 1` is Python integer arithmetic, so it is `-1` on
an empty source. -/
def LexState.string_ahead (st : LexState V T) (string : List Char)
    (offset : Nat) : Bool :=
  string.isPrefixOf
    (pyDropFrom st.src (min ((st.i + offset : Nat) : Int)
      ((st.src.length : Int) - 1)))

/-- `LexerBase.char_ahead`. -/
def LexState.char_ahead (st : LexState V T) (ch : Char) (offset : Nat) : Bool :=
  if st.src.length ≤ st.i + offset then false
  else st.src.get? (st.i + offset) == some ch

/-- `LexerBase.match` (named `matchStr` here; `match` is reserved in Lean).
The single-string overload is the singleton-list case.  The first candidate
found ahead is handed to `consume_many`, whose result is returned directly. -/
def LexState.matchStr (st : LexState V T) :
    List (List Char) → Option (List Char) × LexState V T
  | [] => (none, st)
  | s :: rest =>
      if st.string_ahead s 0 then st.consume_many s.length
      else st.matchStr rest

/-- `LexerBase.require`. -/
def LexState.require (st : LexState V T) (strings : List (List Char)) :
    Except LexExc (List Char × LexState V T) :=
  match st.matchStr strings with
  | (some s, st') => .ok (s, st')
  | (none, st') => .error (.requireFailed st'.pos strings)

/-- `LexerBase.reset_start`. -/
def LexState.reset_start (st : LexState V T) : LexState V T :=
  { st with start := st.i }

/-- `LexerBase.add_token`: lexeme is `src[start : i]`, the value defaults to
the lexeme (the `sentinel` default is modelled by `Option`), the position is
the emission-time cursor position, the token is appended and `start` is reset
to the current offset. -/
def LexState.add_token (st : LexState V T) (token_typ : T) (value : Option V) :
    Tok V T × LexState V T :=
  let lexeme := pySlice st.src st.start st.i
  let token : Tok V T :=
    { type := token_typ, lexeme := lexeme,
      value := match value with
        | none => .inl lexeme
        | some v => .inr v,
      pos := st.pos }
  (token, (LexState.reset_start { st with tokens := st.tokens ++ [token] }))

/-- `LexerBase.unexpected`: builds the raised error (at the current cursor
position). -/
def LexState.unexpected (st : LexState V T) (ch : List Char) : LexExc :=
  .unexpectedChar st.pos ch

/-- The `while` loop of `LexerBase.consume_while`:
`while (not_at_end <= self.not_at_end) and cond(): self.inc_pos()`.
Fuel makes the possibly diverging loop total; `none` means the loop was still
running when the fuel ran out. -/
def LexState.consume_while_loop (cond : LexState V T → Bool)
    (na_flag : Bool) : Nat → LexState V T → Option (LexState V T)
  | 0, st =>
      if pyBoolLe na_flag st.not_at_end && cond st then none else some st
  | fuel + 1, st =>
      if pyBoolLe na_flag st.not_at_end && cond st then
        LexState.consume_while_loop cond na_flag fuel (st.inc_pos 1)
      else some st

/-- `LexerBase.consume_while`: runs the loop from `local_start = i` and
returns `src[local_start : i]` together with the final state. -/
def LexState.consume_while (st : LexState V T) (cond : LexState V T → Bool)
    (na_flag : Bool) (fuel : Nat) : Option (List Char × LexState V T) :=
  (LexState.consume_while_loop cond na_flag fuel st).map
    (fun st2 => (pySlice st.src st.i st2.i, st2))

/-- Parse-time error taxonomy (`parser/exceptions.py`), plus `typeError`
modelling the Python `TypeError` raised by `ParserBase.pos` when it evaluates
`tok[-1].pos` with `tok = None` (cursor past the end of the token sequence). -/
inductive ParserExc (V T : Type) where
  | requireFailed (pos : TokenPos) (tokens : List (Sum (List Char) T))
  | unexpectedToken (pos : TokenPos) (token : Tok V T)
  | invariantError
  | typeError
deriving DecidableEq, Repr

/-- Parser cursor state (`ParserBase` mutable fields). -/
structure PState (V T : Type) where
  tokens : List (Tok V T)
  i : Nat
deriving DecidableEq, Repr

/-- Python list indexing `l[k]`: nonnegative indices from the front, negative
indices from the back; an out-of-range index raises `IndexError`, modelled as
`none` (no caller in the claims reaches that case). -/
def pyGetTok (l : List (Tok V T)) (k : Int) : Option (Tok V T) :=
  if 0 ≤ k then l.get? k.toNat
  else if 0 ≤ (l.length : Int) + k then l.get? ((l.length : Int) + k).toNat
  else none

/-- `ParserBase.is_at_end`. -/
def PState.is_at_end (st : PState V T) : Bool :=
  st.tokens.length ≤ st.i

/-- `ParserBase.lookahead`. -/
def PState.lookahead (st : PState V T) (delta : Int) : Option (Tok V T) :=
  if (st.tokens.length : Int) ≤ (st.i : Int) + delta then none
  else pyGetTok st.tokens ((st.i : Int) + delta)

/-- `ParserBase.peek`. -/
def PState.peek (st : PState V T) : Option (Tok V T) :=
  st.lookahead 0

/-- `ParserBase.pos`: `if tok := self.peek: return tok.pos` (token objects are
truthy), and otherwise the source evaluates `tok[-1].pos` where `tok` is
`None`, raising `TypeError` — modelled as `none`. -/
def PState.pos (st : PState V T) : Option TokenPos :=
  st.peek.map Tok.pos

/-- `ParserBase.consume`: `None` at end of sequence, else advances and returns
the token just passed (`self.prev_rq`, which is present by construction). -/
def PState.consume (st : PState V T) : Option (Tok V T) × PState V T :=
  if st.is_at_end then (none, st)
  else (st.tokens.get? st.i, { st with i := st.i + 1 })

/-- One `match`/`require` candidate: a literal lexeme (`str`) or a type tag. -/
def candMatches [DecidableEq T] (tok : Tok V T) :
    Sum (List Char) T → Bool
  | .inl s => tok.lexeme == s
  | .inr t => tok.type == t

/-- `ParserBase.match` (named `matchCand` here): at end of sequence returns
`None`; otherwise consumes the current token when its lexeme equals a literal
candidate or its type equals a tag candidate (each candidate tried in order,
every successful branch performing the same single `consume`). -/
def PState.matchCand [DecidableEq T] (st : PState V T)
    (types : List (Sum (List Char) T)) : Option (Tok V T) × PState V T :=
  if st.is_at_end then (none, st)
  else
    match st.tokens.get? st.i with
    | none => (none, st)
    | some tok =>
        if types.any (candMatches tok) then st.consume else (none, st)

/-- `ParserBase.require`: on no match raises `ParserRequireFailedError` built
at `self.pos` — whose evaluation itself raises `TypeError` when the cursor is
past the end. -/
def PState.require [DecidableEq T] (st : PState V T)
    (types : List (Sum (List Char) T)) :
    Except (ParserExc V T) (Tok V T × PState V T) :=
  match st.matchCand types with
  | (some tok, st') => .ok (tok, st')
  | (none, st') =>
      .error (match st'.pos with
        | some p => .requireFailed p types
        | none => .typeError)

/-- `ParserBase.unexpected`: builds the raised error, again via `self.pos`. -/
def PState.unexpected (st : PState V T) (token : Tok V T) : ParserExc V T :=
  match st.pos with
  | some p => .unexpectedToken p token
  | none => .typeError

/-- One element of a structural pattern: a literal lexeme, a type tag, or a
tuple of literals/tags meaning "any of these". -/
inductive PatItem (T : Type) where
  | lit (s : List Char)
  | tag (t : T)
  | anyOf (alts : List (Sum (List Char) T))
deriving DecidableEq, Repr

/-- Whether one token matches one pattern element. -/
def itemMatches [DecidableEq T] (tok : Tok V T) : PatItem T → Bool
  | .lit s => tok.lexeme == s
  | .anyOf alts => alts.any (candMatches tok)
  | .tag t => tok.type == t

/-- `itemMatches` lifted to the `Option` result of a list lookup (`none`, which
the guarded source indexing never produces, matches nothing). -/
def itemMatchesOpt [DecidableEq T] (o : Option (Tok V T)) (item : PatItem T) :
    Bool :=
  match o with
  | none => false
  | some tok => itemMatches tok item

/-- `ParserBase.pattern_ahead`: `False` when
`self.i + len(pattern) >= len(self.tokens)`, else every `tokens[i + k]`
matches pattern element `k`.  The method performs no assignment, so the state
component of the result is the input state. -/
def PState.pattern_ahead [DecidableEq T] (st : PState V T)
    (pattern : List (PatItem T)) : Bool × PState V T :=
  if st.tokens.length ≤ st.i + pattern.length then (false, st)
  else
    (pattern.enum.all fun ki =>
      itemMatchesOpt (st.tokens.get? (st.i + ki.1)) ki.2, st)

/-- `ParserBase.match_pattern`: on `pattern_ahead` success returns
`tokens[i : i + len(pattern)]` and advances by the pattern length, else
returns `None` without consuming. -/
def PState.match_pattern [DecidableEq T] (st : PState V T)
    (pattern : List (PatItem T)) :
    Option (List (Tok V T)) × PState V T :=
  if (st.pattern_ahead pattern).1 then
    (some (pySlice st.tokens st.i (st.i + pattern.length)),
      { st with i := st.i + pattern.length })
  else (none, st)

/-- Abstraction of a Python `float` value: the literal it was decoded from.
No claim inspects decoded numeric values. -/
structure PyFloat where
  lit : List Char
deriving DecidableEq, Repr

/-- `demo/demo_lexer.py`: `ArithmeticTokenType`. -/
inductive ArithmeticTokenType where
  | NUMBER | PLUS | MINUS | MUL | DIV | LPAR | RPAR
deriving DecidableEq, Repr

/-- The Python `Enum` value lookup `ArithmeticTokenType(ch)` for the
single-character token types. -/
def arithTypeOfChar (ch : Char) : Option ArithmeticTokenType :=
  if ch = '+' then some .PLUS
  else if ch = '-' then some .MINUS
  else if ch = '*' then some .MUL
  else if ch = '/' then some .DIV
  else if ch = '(' then some .LPAR
  else if ch = ')' then some .RPAR
  else none

/-- Demo scanner state: `ArithmeticToken` has `value: str | float`, modelled
by `Sum (List Char) PyFloat` inside `Tok`. -/
abbrev DState := LexState PyFloat ArithmeticTokenType

/-- Errors the demo scanner can raise: engine lexer errors, plus the
`ValueError` an `Enum` value lookup would raise on an unknown value
(unreachable behind the character-class guard). -/
inductive DemoExc where
  | lex (e : LexExc)
  | enumValueError
deriving DecidableEq, Repr

/-- Python `needle in hay` on strings: substring containment. -/
def pyStrContains (needle hay : List Char) : Bool :=
  hay.tails.any fun t => needle.isPrefixOf t

/-- The predicate closure in `ArithmeticLexer.scan_number`:
`self.peek in "0123456789."` — Python substring containment, true for the
empty `peek` at end of input. -/
def demoNumberCond (st : DState) : Bool :=
  pyStrContains st.peek ['0', '1', '2', '3', '4', '5', '6', '7', '8', '9', '.']

/-- `ArithmeticLexer.scan_number`: `consume_while` with the input-must-remain
policy, then a NUMBER token whose value is `float(number_str)`.  The flag-true
loop always terminates within the given fuel (proved below), so the `none`
fuel-exhaustion branch is unreachable. -/
def ArithmeticLexer.scan_number (st : DState) : DState :=
  match st.consume_while demoNumberCond true (st.src.length + 1 - st.i) with
  | some (number_str, st') => (st'.add_token .NUMBER (some ⟨number_str⟩)).2
  | none => st

/-- `ArithmeticLexer.scan_char`: one scanning step.  `ch.isnumeric()` is
modelled as `Char.isDigit` (the demo sources are ASCII). -/
def ArithmeticLexer.scan_char (st : DState) : Except DemoExc DState :=
  match st.consume with
  | (none, st') => .error (.lex (st'.unexpected ['E', 'O', 'F']))
  | (some ch, st1) =>
      if ['(', ')', '+', '-', '/', '*'].contains ch then
        match arithTypeOfChar ch with
        | some t => .ok (st1.add_token t none).2
        | none => .error .enumValueError
      else if ch.isDigit then
        .ok (ArithmeticLexer.scan_number (st1.inc_pos (-1)))
      else if [' ', '\t'].contains ch then .ok st1.reset_start
      else if ['\r', '\n'].contains ch then .ok st1.mark_next_line.reset_start
      else .error (.lex (st1.unexpected [ch]))

/-- `LexerBase.scan` specialised to the demo lexer:
`while not self.is_at_end: self.scan_char()`, fuel-bounded (`none` when the
fuel runs out before the loop does). -/
def ArithmeticLexer.scan :
    Nat → DState → Option (Except DemoExc (List (Tok PyFloat ArithmeticTokenType)))
  | 0, st => if st.is_at_end then some (.ok st.tokens) else none
  | fuel + 1, st =>
      if st.is_at_end then some (.ok st.tokens)
      else
        match ArithmeticLexer.scan_char st with
        | .ok st' => ArithmeticLexer.scan fuel st'
        | .error e => some (.error e)

/-- One call to a scanning-engine primitive, as available to a concrete
scanning step (the primitives of spec §4.2; `consume_while` carries its
predicate closure, its boundary-policy flag and the fuel bounding the loop). -/
inductive ScanStep (V T : Type) where
  | consume
  | consume_or_fail
  | consume_many (count : Nat)
  | consume_many_or_fail (count : Nat)
  | match_strings (strings : List (List Char))
  | require (strings : List (List Char))
  | add_token (typ : T) (value : Option V)
  | reset_start
  | mark_next_line
  | consume_while (cond : LexState V T → Bool) (na_flag : Bool) (fuel : Nat)
  | unexpected (ch : List Char)

/-- The state transition of one primitive call: `some` is the state after a
normal return, `none` means the call raised (or, for `consume_while`, that the
fuel ran out). -/
def execStep : ScanStep V T → LexState V T → Option (LexState V T)
  | .consume, st => some (st.consume).2
  | .consume_or_fail, st =>
      match st.consume_or_fail with
      | .ok r => some r.2
      | .error _ => none
  | .consume_many count, st => some (st.consume_many count).2
  | .consume_many_or_fail count, st =>
      match st.consume_many_or_fail count with
      | .ok r => some r.2
      | .error _ => none
  | .match_strings strings, st => some (st.matchStr strings).2
  | .require strings, st =>
      match st.require strings with
      | .ok r => some r.2
      | .error _ => none
  | .add_token typ v, st => some (st.add_token typ v).2
  | .reset_start, st => some st.reset_start
  | .mark_next_line, st => some st.mark_next_line
  | .consume_while cond na_flag fuel, st =>
      (st.consume_while cond na_flag fuel).map (fun r => r.2)
  | .unexpected _, _ => none

/-- Scanner states reachable from a freshly constructed lexer by scanning
steps built from primitives allowed by `P`. -/
inductive Reach (P : ScanStep V T → Prop) : LexState V T → Prop where
  | init (src : List Char) : Reach P (LexState.init src)
  | step (s : ScanStep V T) (st st' : LexState V T) (hP : P s)
      (hr : Reach P st) (he : execStep s st = some st') : Reach P st'

/-- Primitive calls whose every `consume_while` uses the input-must-remain
boundary policy. -/
def safeStep : ScanStep V T → Prop
  | .consume_while _ na_flag _ => na_flag = true
  | _ => True

lemma LexState.inc_pos_one (st : LexState V T) :
    st.inc_pos 1 = { st with i := st.i + 1, line_i := st.line_i + 1 } := by
  cases st
  simp only [LexState.inc_pos, LexState.mk.injEq, and_true, true_and]
  omega

lemma LexState.inc_pos_nat (st : LexState V T) (n : Nat) :
    st.inc_pos (n : Int) = { st with i := st.i + n, line_i := st.line_i + n } := by
  cases st
  simp only [LexState.inc_pos, LexState.mk.injEq, and_true, true_and]
  omega

lemma LexState.consume_of_lt (st : LexState V T) (h : st.i < st.src.length) :
    st.consume =
      (some (st.src.get ⟨st.i, h⟩),
        { st with i := st.i + 1, line_i := st.line_i + 1 }) := by
  simp [LexState.consume, h, LexState.inc_pos_one]

lemma LexState.consume_of_ge (st : LexState V T) (h : st.src.length ≤ st.i) :
    st.consume = (none, st) := by
  simp [LexState.consume, Nat.not_lt.2 h]

lemma LexState.consume_many_of_lt (st : LexState V T) (n : Nat)
    (h : st.i + n < st.src.length) :
    st.consume_many n =
      (some (pySlice st.src st.i (st.i + n)),
        { st with i := st.i + n, line_i := st.line_i + n }) := by
  rw [LexState.consume_many, if_neg (by omega), LexState.inc_pos_nat]

lemma LexState.consume_many_of_ge (st : LexState V T) (n : Nat)
    (h : st.src.length ≤ st.i + n) :
    st.consume_many n = (none, st) := by
  rw [LexState.consume_many, if_pos h]

lemma pySlice_eq_drop_take {α : Type} (l : List α) (a b : Nat) :
    pySlice l a b = (l.drop a).take (b - a) := by
  simp [pySlice, List.drop_take]

lemma pySlice_length {α : Type} (l : List α) (a b : Nat) (h1 : a ≤ b)
    (h2 : b ≤ l.length) : (pySlice l a b).length = b - a := by
  simp [pySlice]
  omega

/-- **C1.** The spec says a parser `require`/`unexpected` error raised with
the cursor past the end of a non-empty token sequence carries the position of
the last token.  On the token sequence of `"(1+2"` (cursor past the end, as
after parsing the inner expression), `require(")")` instead evaluates
`ParserBase.pos`, whose fallback branch subscripts `None` (`tok[-1]` with
`tok = None`) and raises `TypeError`: the embedded `require` yields the
`typeError` outcome and the embedded `pos` yields no position at all, even
though the last token carries the real position `line 0, char 4, gpos 4`. -/
theorem parser_error_pos_past_end_is_typeError :
    PState.require
        { tokens :=
            [{ type := ArithmeticTokenType.LPAR, lexeme := ['('],
               value := .inl ['('], pos := ⟨0, 1, 1⟩ },
             { type := ArithmeticTokenType.NUMBER, lexeme := ['1'],
               value := .inr (⟨['1']⟩ : PyFloat), pos := ⟨0, 2, 2⟩ },
             { type := ArithmeticTokenType.PLUS, lexeme := ['+'],
               value := .inl ['+'], pos := ⟨0, 3, 3⟩ },
             { type := ArithmeticTokenType.NUMBER, lexeme := ['2'],
               value := .inr (⟨['2']⟩ : PyFloat), pos := ⟨0, 4, 4⟩ }],
          i := 4 }
        [Sum.inl [')']]
      = Except.error ParserExc.typeError ∧
    PState.pos
        { tokens :=
            [{ type := ArithmeticTokenType.LPAR, lexeme := ['('],
               value := .inl ['('], pos := ⟨0, 1, 1⟩ },
             { type := ArithmeticTokenType.NUMBER, lexeme := ['1'],
               value := .inr (⟨['1']⟩ : PyFloat), pos := ⟨0, 2, 2⟩ },
             { type := ArithmeticTokenType.PLUS, lexeme := ['+'],
               value := .inl ['+'], pos := ⟨0, 3, 3⟩ },
             { type := ArithmeticTokenType.NUMBER, lexeme := ['2'],
               value := .inr (⟨['2']⟩ : PyFloat), pos := ⟨0, 4, 4⟩ }],
          i := 4 }
      = (none : Option TokenPos) := by
  exact ⟨rfl, rfl⟩

/-- **C2 (counterexample).** Scanning `"2 + 3"` with the demo arithmetic lexer
does yield three tokens with lexemes `"2"`, `"+"`, `"3"`, but their absolute
offsets are not `0, 2, 4`: `add_token` records the emission-time cursor
position, which sits at the end of each lexeme. -/
theorem demo_scan_offsets_not_token_starts :
    (match ArithmeticLexer.scan 10 (LexState.init ['2', ' ', '+', ' ', '3']) with
      | some (Except.ok toks) => toks.map (fun t => t.pos.pos)
      | _ => []) ≠ [0, 2, 4] ∧
    (match ArithmeticLexer.scan 10 (LexState.init ['2', ' ', '+', ' ', '3']) with
      | some (Except.ok toks) => toks.map Tok.lexeme
      | _ => []) = [['2'], ['+'], ['3']] := by
  exact ⟨by decide, by decide⟩

/-- **C2 (amended).** Scanning `"2 + 3"` with the demo arithmetic lexer
succeeds and yields exactly `NUMBER "2"`, `PLUS "+"`, `NUMBER "3"`, whose
positions' absolute offsets are `1, 3, 5` — the emission-time cursor offsets,
one past the end of each lexeme. -/
theorem demo_scan_two_plus_three :
    ArithmeticLexer.scan 10 (LexState.init ['2', ' ', '+', ' ', '3']) =
      some (Except.ok
        [{ type := ArithmeticTokenType.NUMBER, lexeme := ['2'],
           value := .inr ⟨['2']⟩, pos := ⟨0, 1, 1⟩ },
         { type := ArithmeticTokenType.PLUS, lexeme := ['+'],
           value := .inl ['+'], pos := ⟨0, 3, 3⟩ },
         { type := ArithmeticTokenType.NUMBER, lexeme := ['3'],
           value := .inr ⟨['3']⟩, pos := ⟨0, 5, 5⟩ }]) := by
  rfl

/-- **C3.** The claim (and the method's own docstring) says
`consume_many_or_fail(n)` consumes the next `n` characters when enough remain
and raises Consumption-Failed otherwise.  The body instead calls the
single-character `consume()`: on `"abc"` with `n = 2` it returns only `"a"`
and advances the cursor by one, and on `"ab"` at offset 1 with `n = 5` it
returns `"b"` without raising although only one character remains; it raises
(carrying `count = n`) only when the cursor is already at end of input. -/
theorem consume_many_or_fail_consumes_one_char :
    LexState.consume_many_or_fail
        ({ src := ['a', 'b', 'c'], i := 0, line := 0, line_i := 0, start := 0,
           tokens := [] } : LexState Unit Unit) 2
      = Except.ok (['a'],
          { src := ['a', 'b', 'c'], i := 1, line := 0, line_i := 1, start := 0,
            tokens := [] }) ∧
    LexState.consume_many_or_fail
        ({ src := ['a', 'b'], i := 1, line := 0, line_i := 1, start := 0,
           tokens := [] } : LexState Unit Unit) 5
      = Except.ok (['b'],
          { src := ['a', 'b'], i := 2, line := 0, line_i := 2, start := 0,
            tokens := [] }) ∧
    LexState.consume_many_or_fail
        ({ src := ['a', 'b'], i := 2, line := 0, line_i := 2, start := 0,
           tokens := [] } : LexState Unit Unit) 3
      = Except.error (LexExc.consumeFailed ⟨0, 2, 2⟩ 3) := by
  exact ⟨rfl, rfl, rfl⟩

/-- **C10 (amended).** Every token built by `add_token` records as its
position the emission-time cursor state, and its lexeme is the clamped slice
`src[tokenStart : i]` at the moment of emission; whenever the emission state
additionally satisfies the scanner cursor bound `tokenStart ≤ i ≤ length`
— which every primitive preserves except `consume_while` under the
no-input-required policy — the recorded absolute offset therefore equals
`tokenStart + length(lexeme)`, the end of the lexeme.  In an overrun emission
state (`i` past end of source) the recorded offset is still the emission-time
`i` and exceeds `tokenStart + length(lexeme)`. -/
theorem add_token_pos_at_emission (st : LexState V T) (typ : T)
    (v : Option V) :
    (st.add_token typ v).1.pos = st.pos ∧
    (st.add_token typ v).1.lexeme = pySlice st.src st.start st.i ∧
    (st.start ≤ st.i → st.i ≤ st.src.length →
      (st.add_token typ v).1.pos.pos =
        st.start + (st.add_token typ v).1.lexeme.length) := by
  refine ⟨rfl, rfl, fun h1 h2 => ?_⟩
  show st.pos.pos = st.start + (pySlice st.src st.start st.i).length
  rw [pySlice_length st.src st.start st.i h1 h2]
  simp only [LexState.pos]
  omega

/-- Witness for `add_token_pos_at_emission` at a concrete well-formed state,
with both bound hypotheses discharged. -/
theorem add_token_pos_at_emission_witness :
    (LexState.add_token
        ({ src := ['a', 'b'], i := 1, line := 0, line_i := 1, start := 0,
           tokens := [] } : LexState Unit Unit) () none).1.pos =
      LexState.pos
        ({ src := ['a', 'b'], i := 1, line := 0, line_i := 1, start := 0,
           tokens := [] } : LexState Unit Unit) ∧
    (LexState.add_token
        ({ src := ['a', 'b'], i := 1, line := 0, line_i := 1, start := 0,
           tokens := [] } : LexState Unit Unit) () none).1.lexeme =
      pySlice ['a', 'b'] 0 1 ∧
    (LexState.add_token
        ({ src := ['a', 'b'], i := 1, line := 0, line_i := 1, start := 0,
           tokens := [] } : LexState Unit Unit) () none).1.pos.pos =
      0 + (LexState.add_token
        ({ src := ['a', 'b'], i := 1, line := 0, line_i := 1, start := 0,
           tokens := [] } : LexState Unit Unit) () none).1.lexeme.length :=
  ⟨(add_token_pos_at_emission
      ({ src := ['a', 'b'], i := 1, line := 0, line_i := 1, start := 0,
         tokens := [] } : LexState Unit Unit) () none).1,
   (add_token_pos_at_emission
      ({ src := ['a', 'b'], i := 1, line := 0, line_i := 1, start := 0,
         tokens := [] } : LexState Unit Unit) () none).2.1,
   (add_token_pos_at_emission
      ({ src := ['a', 'b'], i := 1, line := 0, line_i := 1, start := 0,
         tokens := [] } : LexState Unit Unit) () none).2.2 (by decide)
     (by decide)⟩

lemma prefix_of_singleton_iff {α : Type} {x : α} {s : List α} :
    s <+: [x] ↔ s = [] ∨ s = [x] := by
  constructor
  · intro h
    rcases h with ⟨t, ht⟩
    cases s with
    | nil => exact Or.inl rfl
    | cons a s' =>
        cases s' with
        | nil =>
            simp only [List.cons_append, List.nil_append, List.cons.injEq] at ht
            exact Or.inr (by simp [ht.1])
        | cons b s'' => simp at ht
  · rintro (rfl | rfl)
    · exact List.nil_prefix
    · exact List.prefix_refl _

/-- **C4 (counterexample).** A `string_ahead` probe whose queried position
(`i + offset = 2`) lies at the end of the two-character source `"ab"` reports
a match for `"b"`, because the probe start is clamped to `len(src) - 1`; the
claim demands that every probe at or past end-of-input report no match. -/
theorem string_ahead_past_end_matches :
    LexState.string_ahead
        ({ src := ['a', 'b'], i := 2, line := 0, line_i := 2, start := 0,
           tokens := [] } : LexState Unit Unit) ['b'] 0 = true ∧
    (['a', 'b'] : List Char).length ≤ 2 + 0 := by
  exact ⟨by decide, by decide⟩

/-- **C4 (amended).** The probes never raise and never move the cursor (they
are state-pure).  A `char_ahead` probe whose queried position lies at or past
end-of-input reports no match; a `string_ahead` probe there is clamped to
start at `len(src) - 1`, so it reports a match exactly for the empty string
and for the one-character suffix `src[len(src) - 1:]` (on an empty source,
exactly for the empty string). -/
theorem lookahead_probes_past_end (st : LexState V T) (c : Char)
    (s : List Char) (off : Nat) (h : st.src.length ≤ st.i + off) :
    st.char_ahead c off = false ∧
    (st.string_ahead s off = true ↔
      (s = [] ∨ s = st.src.drop (st.src.length - 1))) := by
  constructor
  · simp [LexState.char_ahead, h]
  · simp only [LexState.string_ahead, List.isPrefixOf_iff_prefix]
    rcases Nat.eq_zero_or_pos st.src.length with hz | hpos
    · have hmin : min ((st.i + off : Nat) : Int) ((st.src.length : Int) - 1)
          = -1 := by omega
      have hsrc : st.src = [] := List.length_eq_zero.1 hz
      rw [hmin, pyDropFrom, if_pos (by omega), hsrc]
      simp
    · have hmin : min ((st.i + off : Nat) : Int) ((st.src.length : Int) - 1)
          = ((st.src.length - 1 : Nat) : Int) := by omega
      rw [hmin, pyDropFrom, if_neg (by omega), Int.toNat_natCast]
      have hlen : (st.src.drop (st.src.length - 1)).length = 1 := by
        simp only [List.length_drop]
        omega
      rcases hd : st.src.drop (st.src.length - 1) with _ | ⟨x, t⟩
      · rw [hd] at hlen
        simp at hlen
      · rw [hd] at hlen
        simp only [List.length_cons, Nat.add_left_eq_self,
          Nat.succ.injEq] at hlen
        have ht : t = [] := List.length_eq_zero.1 hlen
        subst ht
        exact prefix_of_singleton_iff

/-- Witness for `lookahead_probes_past_end` at a concrete past-end probe. -/
theorem lookahead_probes_past_end_witness :
    LexState.char_ahead
        ({ src := ['a', 'b'], i := 2, line := 0, line_i := 2, start := 0,
           tokens := [] } : LexState Unit Unit) 'b' 0 = false ∧
    (LexState.string_ahead
        ({ src := ['a', 'b'], i := 2, line := 0, line_i := 2, start := 0,
           tokens := [] } : LexState Unit Unit) ['b'] 0 = true ↔
      (['b'] = ([] : List Char) ∨
        ['b'] = (['a', 'b'] : List Char).drop ((['a', 'b'] : List Char).length - 1))) :=
  lookahead_probes_past_end
    ({ src := ['a', 'b'], i := 2, line := 0, line_i := 2, start := 0,
       tokens := [] } : LexState Unit Unit) 'b' ['b'] 0 (by decide)

lemma matchStr_eq_find (st : LexState V T) (cands : List (List Char)) :
    st.matchStr cands =
      (match cands.find? (fun c => st.string_ahead c 0) with
        | none => (none, st)
        | some c => st.consume_many c.length) := by
  induction cands with
  | nil => rfl
  | cons c rest ih =>
      by_cases h : st.string_ahead c 0
      · simp [LexState.matchStr, h, List.find?_cons]
      · simp only [LexState.matchStr, List.find?_cons, Bool.not_eq_true] at *
        rw [h] at *
        simpa using ih

lemma string_ahead_of_lt (st : LexState V T) (s : List Char)
    (h : st.i < st.src.length) :
    st.string_ahead s 0 = s.isPrefixOf (st.src.drop st.i) := by
  have hmin : min ((st.i + 0 : Nat) : Int) ((st.src.length : Int) - 1)
      = ((st.i : Nat) : Int) := by omega
  simp only [LexState.string_ahead, hmin, pyDropFrom]
  rw [if_neg (by omega), Int.toNat_natCast]

/-- **C5 (amended).** `match` computes the list's first candidate found ahead
of the cursor (`find?` over `string_ahead`) and returns the `consume_many`
result for it: the candidate is consumed and returned only when strictly more
than its length remains (`i + len(c) < len(src)`); otherwise — in particular
when the first candidate found ahead is exactly the remaining suffix of the
source — `match` returns none with the state unchanged.  Whenever it returns
a string, that string is a member of the candidate list, equals
`src[i : i + len]`, and the cursor has advanced by exactly its length. -/
theorem match_first_candidate_strict (cands : List (List Char))
    (st : LexState V T) :
    st.matchStr cands =
      (match cands.find? (fun c => st.string_ahead c 0) with
        | none => (none, st)
        | some c => st.consume_many c.length) ∧
    (st.matchStr cands).2.src = st.src ∧
    (st.matchStr cands).2.start = st.start ∧
    (st.matchStr cands).2.tokens = st.tokens ∧
    (st.matchStr cands).2.i = st.i + ((st.matchStr cands).1.getD []).length ∧
    Option.all (fun s => decide (st.i + s.length < st.src.length))
      (st.matchStr cands).1 = true ∧
    Option.all
      (fun s => decide (s ∈ cands ∧ s = pySlice st.src st.i (st.i + s.length)))
      (st.matchStr cands).1 = true := by
  refine ⟨matchStr_eq_find st cands, ?_⟩
  rw [matchStr_eq_find st cands]
  rcases hf : cands.find? (fun c => st.string_ahead c 0) with _ | c
  · simp
  · dsimp only
    have hmem : c ∈ cands := List.mem_of_find?_eq_some hf
    have hpc : st.string_ahead c 0 = true := by
      have hx := List.find?_some hf
      simpa using hx
    by_cases hlt : st.i + c.length < st.src.length
    · have hil : st.i < st.src.length := by omega
      have hpre : c <+: st.src.drop st.i := by
        rw [string_ahead_of_lt st c hil] at hpc
        exact List.isPrefixOf_iff_prefix.1 hpc
      have hslice : pySlice st.src st.i (st.i + c.length) = c := by
        rw [pySlice_eq_drop_take]
        have := List.prefix_iff_eq_take.1 hpre
        simp only [Nat.add_sub_cancel_left]
        exact this.symm
      rw [LexState.consume_many_of_lt st c.length hlt]
      refine ⟨rfl, rfl, rfl, ?_, ?_, ?_⟩
      · simp [hslice]
      · simp only [Option.all_some, decide_eq_true_eq]
        rw [hslice]
        exact hlt
      · simp only [Option.all_some, decide_eq_true_eq]
        rw [hslice]
        exact ⟨hmem, hslice.symm⟩
    · rw [LexState.consume_many_of_ge st c.length (by omega)]
      simp

/-- **C5 (counterexample).** With source `"ab"`, cursor 0 and the single
candidate `"ab"` — the matching candidate is exactly the remaining suffix —
the claim says `match` consumes and returns `"ab"`; the code's `consume_many`
off-by-one refuses, and `match` returns none with the cursor unchanged. -/
theorem match_suffix_candidate_not_consumed :
    LexState.matchStr
        ({ src := ['a', 'b'], i := 0, line := 0, line_i := 0, start := 0,
           tokens := [] } : LexState Unit Unit) [['a', 'b']]
      = (none,
          { src := ['a', 'b'], i := 0, line := 0, line_i := 0, start := 0,
            tokens := [] }) ∧
    LexState.string_ahead
        ({ src := ['a', 'b'], i := 0, line := 0, line_i := 0, start := 0,
           tokens := [] } : LexState Unit Unit) ['a', 'b'] 0 = true := by
  exact ⟨by decide, by decide⟩

/-- **C6 (counterexample).** With one token remaining that matches the
one-element pattern (at least `N = 1` tokens remain and every position
matches), the claim says `pattern_ahead` returns true; the code's
`i + len(pattern) >= len(tokens)` guard returns false when exactly `N`
tokens remain. -/
theorem pattern_ahead_exactly_n_false :
    (PState.pattern_ahead
        ({ tokens :=
            [{ type := ArithmeticTokenType.NUMBER, lexeme := ['1'],
               value := .inl ['1'], pos := ⟨0, 1, 1⟩ }],
           i := 0 } : PState PyFloat ArithmeticTokenType)
        [PatItem.lit ['1']]).1 = false ∧
    0 + [(PatItem.lit ['1'] : PatItem ArithmeticTokenType)].length ≤
      [({ type := ArithmeticTokenType.NUMBER, lexeme := ['1'],
          value := .inl ['1'], pos := ⟨0, 1, 1⟩ } : Tok PyFloat ArithmeticTokenType)].length ∧
    itemMatches
      ({ type := ArithmeticTokenType.NUMBER, lexeme := ['1'],
         value := .inl ['1'], pos := ⟨0, 1, 1⟩ } : Tok PyFloat ArithmeticTokenType)
      (PatItem.lit ['1']) = true := by
  exact ⟨by decide, by decide, by decide⟩

/-- **C6 (amended).** `pattern_ahead` returns true iff *strictly more* than
`N` tokens remain from the cursor (`i + N < len(tokens)`) and each of the
next `N` tokens matches its pattern element position-by-position; it returns
false — not an error — when at most `N` tokens remain (including the
exactly-`N` case) or some position mismatches. -/
theorem pattern_ahead_strict_bound [DecidableEq T] (st : PState V T)
    (pattern : List (PatItem T)) :
    (st.pattern_ahead pattern).1 = true ↔
      (st.i + pattern.length < st.tokens.length ∧
        ∀ k : Fin pattern.length,
          itemMatchesOpt (st.tokens.get? (st.i + k.val)) (pattern.get k) = true) := by
  by_cases hg : st.tokens.length ≤ st.i + pattern.length
  · rw [PState.pattern_ahead, if_pos hg]
    constructor
    · intro h
      exact absurd h (by simp)
    · rintro ⟨h1, _⟩
      omega
  · rw [PState.pattern_ahead, if_neg hg]
    dsimp only
    rw [List.all_eq_true]
    constructor
    · intro h
      refine ⟨by omega, fun k => ?_⟩
      have hk : (k.val, pattern.get k) ∈ pattern.enum := by
        rw [List.mem_enum_iff_getElem?]
        simp [List.getElem?_eq_getElem k.isLt, List.get_eq_getElem]
      exact h (k.val, pattern.get k) hk
    · rintro ⟨h1, h2⟩ x hx
      rw [List.mem_enum_iff_getElem?] at hx
      have hxlt : x.1 < pattern.length := by
        by_contra hge
        rw [List.getElem?_eq_none (by omega)] at hx
        exact absurd hx (by simp)
      have hx2 : x.2 = pattern.get ⟨x.1, hxlt⟩ := by
        rw [List.getElem?_eq_getElem hxlt] at hx
        simpa [List.get_eq_getElem] using hx.symm
      have hres := h2 ⟨x.1, hxlt⟩
      rcases x with ⟨k, item⟩
      dsimp only at hx2 ⊢
      rw [hx2]
      exact hres

lemma pattern_ahead_fst_true_lt [DecidableEq T] (st : PState V T)
    (pattern : List (PatItem T))
    (hp : (st.pattern_ahead pattern).1 = true) :
    st.i + pattern.length < st.tokens.length := by
  by_contra hge
  rw [PState.pattern_ahead, if_pos (by omega)] at hp
  exact absurd hp (by simp)

/-- **C7.** `pattern_ahead` leaves the state (cursor index and token
sequence) unchanged regardless of outcome; `match_pattern` leaves the token
sequence unchanged, changes the cursor index iff it returns a non-empty token
sequence, and on success advances by exactly the pattern length, returning
exactly the `pattern.length` tokens it skipped (`tokens[i : i + N]`). -/
theorem pattern_probe_frame [DecidableEq T] (st : PState V T)
    (pattern : List (PatItem T)) :
    (st.pattern_ahead pattern).2 = st ∧
    (st.match_pattern pattern).2.tokens = st.tokens ∧
    ((st.match_pattern pattern).2.i ≠ st.i ↔
      (st.match_pattern pattern).1.getD [] ≠ []) ∧
    (st.match_pattern pattern).2.i =
      st.i + ((st.match_pattern pattern).1.getD []).length ∧
    Option.all (fun l => l.length == pattern.length)
      (st.match_pattern pattern).1 = true ∧
    (st.match_pattern pattern).1 =
      (if (st.pattern_ahead pattern).1 then
        some (pySlice st.tokens st.i (st.i + pattern.length)) else none) := by
  have hpa2 : (st.pattern_ahead pattern).2 = st := by
    rw [PState.pattern_ahead]
    split <;> rfl
  refine ⟨hpa2, ?_⟩
  by_cases hp : (st.pattern_ahead pattern).1
  · have hlt : st.i + pattern.length < st.tokens.length :=
      pattern_ahead_fst_true_lt st pattern hp
    have hlen : (pySlice st.tokens st.i (st.i + pattern.length)).length =
        pattern.length := by
      rw [pySlice_length st.tokens st.i (st.i + pattern.length) (by omega)
        (by omega)]
      omega
    have hnilIff : (pySlice st.tokens st.i (st.i + pattern.length) = []) ↔
        pattern.length = 0 := by
      constructor
      · intro hnil
        have hx := hlen
        rw [hnil] at hx
        simpa using hx.symm
      · intro hz
        exact List.length_eq_zero.1 (by rw [hlen, hz])
    have e1 : st.match_pattern pattern =
        (some (pySlice st.tokens st.i (st.i + pattern.length)),
          { st with i := st.i + pattern.length }) := by
      rw [PState.match_pattern, if_pos hp]
    rw [e1]
    refine ⟨rfl, ?_, ?_, ?_, ?_⟩
    · show st.i + pattern.length ≠ st.i ↔
        (pySlice st.tokens st.i (st.i + pattern.length) ≠ [])
      rw [Ne, Ne, hnilIff]
      omega
    · show st.i + pattern.length =
        st.i + (pySlice st.tokens st.i (st.i + pattern.length)).length
      rw [hlen]
    · simp [hlen]
    · rw [if_pos hp]
  · have e1 : st.match_pattern pattern = (none, st) := by
      rw [PState.match_pattern, if_neg hp]
    rw [e1]
    exact ⟨rfl, by simp, by simp, rfl, by rw [if_neg hp]⟩

lemma pyBoolLe_true (b : Bool) : pyBoolLe true b = b := by
  cases b <;> rfl

lemma pyBoolLe_false (b : Bool) : pyBoolLe false b = true := by
  cases b <;> rfl

lemma consume_while_loop_true_flag (cond : LexState V T → Bool) :
    ∀ (fuel : Nat) (st : LexState V T),
      LexState.consume_while_loop cond true fuel st =
        LexState.consume_while_loop (fun s => s.not_at_end && cond s) false
          fuel st := by
  intro fuel
  induction fuel with
  | zero =>
      intro st
      simp [LexState.consume_while_loop, pyBoolLe_true, pyBoolLe_false]
  | succ n ih =>
      intro st
      simp only [LexState.consume_while_loop, pyBoolLe_true, pyBoolLe_false,
        Bool.true_and]
      split
      · exact ih _
      · rfl

lemma consume_while_always_true_diverges :
    ∀ (fuel : Nat) (st : LexState V T),
      LexState.consume_while_loop (fun _ => true) false fuel st = none := by
  intro fuel
  induction fuel with
  | zero =>
      intro st
      simp [LexState.consume_while_loop, pyBoolLe_false]
  | succ n ih =>
      intro st
      simp only [LexState.consume_while_loop, pyBoolLe_false, Bool.true_and]
      exact ih _

/-- **C8.** `consume_while`'s boundary flag selects the loop condition: the
Python boolean `<=` is implication, so with the input-must-remain policy
(flag true) the loop runs while input remains AND the predicate holds (the
flag-true loop coincides with the flag-false loop over the conjoined
predicate), while with the no-input-required policy (flag false) the
predicate alone governs; in both cases the returned string is the consumed
substring, from the entry offset to the final offset.  The two policies
diverge: on source `"ab"` with the always-true predicate, the
input-must-remain policy stops at end of input returning `"ab"` while the
no-input-required policy never terminates (no fuel suffices). -/
theorem consume_while_policies (V T : Type) :
    (∀ a b : Bool, pyBoolLe a b = (!a || b)) ∧
    (∀ (cond : LexState V T → Bool) (fuel : Nat) (st : LexState V T),
      LexState.consume_while_loop cond true fuel st =
        LexState.consume_while_loop (fun s => s.not_at_end && cond s) false
          fuel st) ∧
    (∀ (cond : LexState V T → Bool) (na_flag : Bool) (fuel : Nat)
        (st : LexState V T),
      st.consume_while cond na_flag fuel =
        (LexState.consume_while_loop cond na_flag fuel st).map
          (fun st2 => ((st.src.drop st.i).take (st2.i - st.i), st2))) ∧
    LexState.consume_while
        ({ src := ['a', 'b'], i := 0, line := 0, line_i := 0, start := 0,
           tokens := [] } : LexState Unit Unit) (fun _ => true) true 3
      = some (['a', 'b'],
          { src := ['a', 'b'], i := 2, line := 0, line_i := 2, start := 0,
            tokens := [] }) ∧
    (∀ fuel : Nat,
      LexState.consume_while
          ({ src := ['a', 'b'], i := 0, line := 0, line_i := 0, start := 0,
             tokens := [] } : LexState Unit Unit) (fun _ => true) false fuel
        = none) := by
  refine ⟨by decide, consume_while_loop_true_flag, ?_, by decide, ?_⟩
  · intro cond na_flag fuel st
    cases h : LexState.consume_while_loop cond na_flag fuel st with
    | none => simp [LexState.consume_while, h]
    | some st2 => simp [LexState.consume_while, h, pySlice_eq_drop_take]
  · intro fuel
    rw [LexState.consume_while, consume_while_always_true_diverges]
    rfl

lemma consume_while_loop_some (cond : LexState V T → Bool) (na_flag : Bool) :
    ∀ (fuel : Nat) (st st2 : LexState V T),
      LexState.consume_while_loop cond na_flag fuel st = some st2 →
        st2.src = st.src ∧ st2.start = st.start ∧ st2.tokens = st.tokens ∧
          st.i ≤ st2.i := by
  intro fuel
  induction fuel with
  | zero =>
      intro st st2 h
      by_cases hc : (pyBoolLe na_flag st.not_at_end && cond st) = true
      · rw [LexState.consume_while_loop, if_pos hc] at h
        exact absurd h (by simp)
      · rw [LexState.consume_while_loop, if_neg hc] at h
        cases h
        exact ⟨rfl, rfl, rfl, le_refl _⟩
  | succ n ih =>
      intro st st2 h
      by_cases hc : (pyBoolLe na_flag st.not_at_end && cond st) = true
      · rw [LexState.consume_while_loop, if_pos hc] at h
        have hr := ih (st.inc_pos 1) st2 h
        rw [LexState.inc_pos_one] at hr
        obtain ⟨h1, h2, h3, h4⟩ := hr
        dsimp only at h1 h2 h3 h4
        exact ⟨h1, h2, h3, by omega⟩
      · rw [LexState.consume_while_loop, if_neg hc] at h
        cases h
        exact ⟨rfl, rfl, rfl, le_refl _⟩

lemma consume_while_loop_true_le (cond : LexState V T → Bool) :
    ∀ (fuel : Nat) (st st2 : LexState V T),
      LexState.consume_while_loop cond true fuel st = some st2 →
        st.i ≤ st.src.length → st2.i ≤ st.src.length := by
  intro fuel
  induction fuel with
  | zero =>
      intro st st2 h hle
      by_cases hc : (pyBoolLe true st.not_at_end && cond st) = true
      · rw [LexState.consume_while_loop, if_pos hc] at h
        exact absurd h (by simp)
      · rw [LexState.consume_while_loop, if_neg hc] at h
        cases h
        exact hle
  | succ n ih =>
      intro st st2 h hle
      by_cases hc : (pyBoolLe true st.not_at_end && cond st) = true
      · rw [pyBoolLe_true, Bool.and_eq_true] at hc
        have hlt : st.i < st.src.length := by
          have h1 := hc.1
          simp only [LexState.not_at_end, LexState.is_at_end, Bool.not_eq_true',
            decide_eq_false_iff_not, Nat.not_le] at h1
          exact h1
        rw [LexState.consume_while_loop,
          if_pos (by rw [pyBoolLe_true, Bool.and_eq_true]; exact hc)] at h
        have hr := ih (st.inc_pos 1) st2 h
          (by rw [LexState.inc_pos_one]; simpa using hlt)
        rw [LexState.inc_pos_one] at hr
        simpa using hr
      · rw [LexState.consume_while_loop, if_neg hc] at h
        cases h
        exact hle

lemma matchStr_snd (st : LexState V T) (cands : List (List Char)) :
    (st.matchStr cands).2 = st ∨
      ((st.matchStr cands).2.src = st.src ∧
        (st.matchStr cands).2.start = st.start ∧
        (st.matchStr cands).2.tokens = st.tokens ∧
        st.i ≤ (st.matchStr cands).2.i ∧
        (st.matchStr cands).2.i ≤ st.src.length) := by
  rw [matchStr_eq_find]
  rcases hf : cands.find? (fun c => st.string_ahead c 0) with _ | c
  · exact Or.inl rfl
  · dsimp only
    by_cases hlt : st.i + c.length < st.src.length
    · right
      rw [LexState.consume_many_of_lt st c.length hlt]
      refine ⟨rfl, rfl, rfl, ?_, ?_⟩ <;> dsimp only <;> omega
    · left
      rw [LexState.consume_many_of_ge st c.length (by omega)]

lemma execStep_require_snd (strings : List (List Char)) (st st' : LexState V T)
    (he : execStep (.require strings) st = some st') :
    st' = (st.matchStr strings).2 := by
  simp only [execStep, LexState.require] at he
  rcases hm : st.matchStr strings with ⟨fst, snd⟩
  rw [hm] at he
  cases fst with
  | none => simp at he
  | some s =>
      simp only [Option.some.injEq] at he
      rw [← he]

lemma consume_while_some_snd (st : LexState V T)
    (cond : LexState V T → Bool) (na_flag : Bool) (fuel : Nat)
    (r : List Char × LexState V T)
    (h : st.consume_while cond na_flag fuel = some r) :
    LexState.consume_while_loop cond na_flag fuel st = some r.2 := by
  simp only [LexState.consume_while, Option.map_eq_some'] at h
  rcases h with ⟨st2, hloop, hr⟩
  rw [← hr]
  exact hloop

lemma execStep_frame (s : ScanStep V T) (st st' : LexState V T)
    (he : execStep s st = some st') :
    st'.src = st.src ∧
      ((st'.start = st.start ∧ st.i ≤ st'.i) ∨ st'.start = st'.i) := by
  cases s with
  | consume =>
      simp only [execStep, Option.some.injEq] at he
      subst he
      by_cases h : st.i < st.src.length
      · rw [LexState.consume_of_lt st h]
        refine ⟨rfl, Or.inl ⟨rfl, ?_⟩⟩
        dsimp only
        omega
      · rw [LexState.consume_of_ge st (by omega)]
        exact ⟨rfl, Or.inl ⟨rfl, le_refl _⟩⟩
  | consume_or_fail =>
      simp only [execStep, LexState.consume_or_fail] at he
      by_cases h : st.i < st.src.length
      · rw [LexState.consume_of_lt st h] at he
        simp only [Option.some.injEq] at he
        subst he
        refine ⟨rfl, Or.inl ⟨rfl, ?_⟩⟩
        dsimp only
        omega
      · rw [LexState.consume_of_ge st (by omega)] at he
        simp at he
  | consume_many count =>
      simp only [execStep, Option.some.injEq] at he
      subst he
      by_cases h : st.i + count < st.src.length
      · rw [LexState.consume_many_of_lt st count h]
        refine ⟨rfl, Or.inl ⟨rfl, ?_⟩⟩
        dsimp only
        omega
      · rw [LexState.consume_many_of_ge st count (by omega)]
        exact ⟨rfl, Or.inl ⟨rfl, le_refl _⟩⟩
  | consume_many_or_fail count =>
      simp only [execStep, LexState.consume_many_or_fail] at he
      by_cases h : st.i < st.src.length
      · rw [LexState.consume_of_lt st h] at he
        simp only [Option.some.injEq] at he
        subst he
        refine ⟨rfl, Or.inl ⟨rfl, ?_⟩⟩
        dsimp only
        omega
      · rw [LexState.consume_of_ge st (by omega)] at he
        simp at he
  | match_strings strings =>
      simp only [execStep, Option.some.injEq] at he
      subst he
      rcases matchStr_snd st strings with h | h
      · rw [h]
        exact ⟨rfl, Or.inl ⟨rfl, le_refl _⟩⟩
      · exact ⟨h.1, Or.inl ⟨h.2.1, h.2.2.2.1⟩⟩
  | require strings =>
      have hx := execStep_require_snd strings st st' he
      subst hx
      rcases matchStr_snd st strings with h | h
      · rw [h]
        exact ⟨rfl, Or.inl ⟨rfl, le_refl _⟩⟩
      · exact ⟨h.1, Or.inl ⟨h.2.1, h.2.2.2.1⟩⟩
  | add_token typ v =>
      simp only [execStep, Option.some.injEq] at he
      subst he
      exact ⟨rfl, Or.inr rfl⟩
  | reset_start =>
      simp only [execStep, Option.some.injEq] at he
      subst he
      exact ⟨rfl, Or.inr rfl⟩
  | mark_next_line =>
      simp only [execStep, Option.some.injEq] at he
      subst he
      exact ⟨rfl, Or.inl ⟨rfl, le_refl _⟩⟩
  | consume_while cond na_flag fuel =>
      simp only [execStep] at he
      rcases hmap : st.consume_while cond na_flag fuel with _ | r
      · rw [hmap] at he
        exact Option.noConfusion he
      · rw [hmap] at he
        simp only [Option.map_some', Option.some.injEq] at he
        subst he
        have hloop := consume_while_some_snd st cond na_flag fuel r hmap
        have hr := consume_while_loop_some cond na_flag fuel st r.2 hloop
        exact ⟨hr.1, Or.inl ⟨hr.2.1, hr.2.2.2⟩⟩
  | unexpected ch =>
      exact Option.noConfusion he

lemma execStep_start_le (s : ScanStep V T) (st st' : LexState V T)
    (he : execStep s st = some st') (h : st.start ≤ st.i) :
    st'.start ≤ st'.i := by
  rcases execStep_frame s st st' he with ⟨hsrc, ⟨hs, hi⟩ | hre⟩
  · omega
  · omega

lemma execStep_safe_le (s : ScanStep V T) (st st' : LexState V T)
    (hs : safeStep s) (he : execStep s st = some st')
    (h2 : st.i ≤ st.src.length) : st'.i ≤ st'.src.length := by
  have hsrc : st'.src = st.src := (execStep_frame s st st' he).1
  rw [hsrc]
  cases s with
  | consume =>
      simp only [execStep, Option.some.injEq] at he
      subst he
      by_cases h : st.i < st.src.length
      · rw [LexState.consume_of_lt st h]
        dsimp only
        omega
      · rw [LexState.consume_of_ge st (by omega)]
        exact h2
  | consume_or_fail =>
      simp only [execStep, LexState.consume_or_fail] at he
      by_cases h : st.i < st.src.length
      · rw [LexState.consume_of_lt st h] at he
        simp only [Option.some.injEq] at he
        subst he
        dsimp only
        omega
      · rw [LexState.consume_of_ge st (by omega)] at he
        simp at he
  | consume_many count =>
      simp only [execStep, Option.some.injEq] at he
      subst he
      by_cases h : st.i + count < st.src.length
      · rw [LexState.consume_many_of_lt st count h]
        dsimp only
        omega
      · rw [LexState.consume_many_of_ge st count (by omega)]
        exact h2
  | consume_many_or_fail count =>
      simp only [execStep, LexState.consume_many_or_fail] at he
      by_cases h : st.i < st.src.length
      · rw [LexState.consume_of_lt st h] at he
        simp only [Option.some.injEq] at he
        subst he
        dsimp only
        omega
      · rw [LexState.consume_of_ge st (by omega)] at he
        simp at he
  | match_strings strings =>
      simp only [execStep, Option.some.injEq] at he
      subst he
      rcases matchStr_snd st strings with h | h
      · rw [h]
        exact h2
      · exact h.2.2.2.2
  | require strings =>
      have hx := execStep_require_snd strings st st' he
      subst hx
      rcases matchStr_snd st strings with h | h
      · rw [h]
        exact h2
      · exact h.2.2.2.2
  | add_token typ v =>
      simp only [execStep, Option.some.injEq] at he
      subst he
      exact h2
  | reset_start =>
      simp only [execStep, Option.some.injEq] at he
      subst he
      exact h2
  | mark_next_line =>
      simp only [execStep, Option.some.injEq] at he
      subst he
      exact h2
  | consume_while cond na_flag fuel =>
      have hflag : na_flag = true := hs
      subst hflag
      simp only [execStep] at he
      rcases hmap : st.consume_while cond true fuel with _ | r
      · rw [hmap] at he
        exact Option.noConfusion he
      · rw [hmap] at he
        simp only [Option.map_some', Option.some.injEq] at he
        subst he
        have hloop := consume_while_some_snd st cond true fuel r hmap
        exact consume_while_loop_true_le cond fuel st r.2 hloop h2
  | unexpected ch =>
      exact Option.noConfusion he

/-- **C9 (counterexample).** The claim says `tokenStart ≤ i ≤ length(source)`
holds at every point of every scanning step built from the engine's
primitives.  A single `consume_while` call with the no-input-required policy
and the predicate `i < 2` on the one-character source `"a"` is such a step,
and it drives the cursor to `i = 2 > length("a") = 1`: the upper bound is
violated in a reachable state. -/
theorem consume_while_soft_overruns_end :
    Reach (V := Unit) (T := Unit) (fun _ => True)
      { src := ['a'], i := 2, line := 0, line_i := 2, start := 0,
        tokens := [] } ∧
    (['a'] : List Char).length < 2 := by
  refine ⟨?_, by decide⟩
  exact Reach.step (.consume_while (fun st => decide (st.i < 2)) false 5)
    (LexState.init ['a']) _ trivial (Reach.init ['a']) (by decide)

/-- **C9 (amended).** `tokenStart ≤ i` holds in every state reachable by
scanning steps built from the engine's primitives; the full invariant
`tokenStart ≤ i ≤ length(source)` holds in every state reachable when every
`consume_while` call uses the input-must-remain boundary policy — the
no-input-required policy is the only primitive that can push `i` past the end
of the (normalized) source. -/
theorem scan_cursor_invariant (st : LexState V T) :
    (Reach safeStep st → st.start ≤ st.i ∧ st.i ≤ st.src.length) ∧
    (Reach (fun _ => True) st → st.start ≤ st.i) := by
  constructor
  · intro h
    induction h with
    | init src => exact ⟨le_refl _, by simp [LexState.init]⟩
    | step s st1 st2 hP hr he ih =>
        exact ⟨execStep_start_le s st1 st2 he ih.1,
          execStep_safe_le s st1 st2 hP he ih.2⟩
  · intro h
    induction h with
    | init src => exact le_refl _
    | step s st1 st2 hP hr he ih => exact execStep_start_le s st1 st2 he ih

/-- Witness for `scan_cursor_invariant`: both reachability hypotheses hold of
a freshly constructed scanner. -/
theorem scan_cursor_invariant_witness :
    ((LexState.init ['a'] : LexState Unit Unit).start ≤
        (LexState.init ['a'] : LexState Unit Unit).i ∧
      (LexState.init ['a'] : LexState Unit Unit).i ≤
        (LexState.init ['a'] : LexState Unit Unit).src.length) ∧
    (LexState.init ['a'] : LexState Unit Unit).start ≤
      (LexState.init ['a'] : LexState Unit Unit).i :=
  ⟨(scan_cursor_invariant (LexState.init ['a'])).1 (Reach.init ['a']),
    (scan_cursor_invariant (LexState.init ['a'])).2 (Reach.init ['a'])⟩

/-- **C10 (counterexample).** The claim's unconditional offset equation fails
in a reachable emission state: after `consume_while` with the
no-input-required policy overruns the one-character source `"a"` to `i = 2`,
`add_token` emits a token whose lexeme is the clamped slice
`"a"[0:2] = "a"` but whose recorded absolute offset is the emission-time
cursor `2`, while `tokenStart + length(lexeme) = 0 + 1 = 1`. -/
theorem add_token_offset_overrun :
    Reach (V := Unit) (T := Unit) (fun _ => True)
      { src := ['a'], i := 2, line := 0, line_i := 2, start := 0,
        tokens := [] } ∧
    (LexState.add_token
        ({ src := ['a'], i := 2, line := 0, line_i := 2, start := 0,
           tokens := [] } : LexState Unit Unit) () none).1.lexeme = ['a'] ∧
    (LexState.add_token
        ({ src := ['a'], i := 2, line := 0, line_i := 2, start := 0,
           tokens := [] } : LexState Unit Unit) () none).1.pos.pos ≠
      ({ src := ['a'], i := 2, line := 0, line_i := 2, start := 0,
         tokens := [] } : LexState Unit Unit).start +
        (LexState.add_token
            ({ src := ['a'], i := 2, line := 0, line_i := 2, start := 0,
               tokens := [] } : LexState Unit Unit) () none).1.lexeme.length := by
  refine ⟨?_, by decide, by decide⟩
  exact Reach.step (.consume_while (fun st => decide (st.i < 2)) false 5)
    (LexState.init ['a']) _ trivial (Reach.init ['a']) (by decide)

end Syntactix
